import Mathlib

/-!
# Verification of the Financial Tracker data layer (`src/app.py`)

Shallow embedding of the data-reconciliation / aggregation layer of the
finance tracker: sheet rows, normalization, upsert-by-key, date-range
filtering, month partitioning, budget comparison and goal progress.
Numeric cells are modelled by `ℚ`, calendar dates by a `Date` record,
raw sheet cells by `Cell` (a string or a number, as returned by
`get_all_records`).
-/

set_option maxHeartbeats 1000000

/-- A calendar date, as produced by parsing the `Date` column
(`pd.to_datetime(...).dt.date`): year, month, day. -/
@[ext]
structure Date where
  y : Nat
  m : Nat
  d : Nat
deriving DecidableEq, Repr

/-- Ordering of Python `datetime.date` values: lexicographic on
(year, month, day). -/
def Date.le (a b : Date) : Prop :=
  a.y < b.y ∨ (a.y = b.y ∧ (a.m < b.m ∨ (a.m = b.m ∧ a.d ≤ b.d)))

instance : LE Date := ⟨Date.le⟩

instance Date.decLe : ∀ a b : Date, Decidable (a ≤ b) := fun a b =>
  inferInstanceAs (Decidable (a.y < b.y ∨ (a.y = b.y ∧ (a.m < b.m ∨ (a.m = b.m ∧ a.d ≤ b.d)))))

theorem Date.le_def (a b : Date) :
    a ≤ b ↔ a.y < b.y ∨ (a.y = b.y ∧ (a.m < b.m ∨ (a.m = b.m ∧ a.d ≤ b.d))) := Iff.rfl

theorem Date.le_refl (a : Date) : a ≤ a := by
  rw [Date.le_def]; omega

theorem Date.le_antisymm {a b : Date} (h1 : a ≤ b) (h2 : b ≤ a) : a = b := by
  rw [Date.le_def] at h1 h2
  ext <;> omega

/-- Fixed-width base-10 digit list of `n`, most significant digit first,
zero padded to width `w` (the digit string a `%04d` / `%02d` format or
`str(date)` / `str(pd.Period)` produces). -/
def padDigits : Nat → Nat → List Nat
  | 0, _ => []
  | w + 1, n => n / 10 ^ w :: padDigits w (n % 10 ^ w)

/-- Value of a most-significant-first digit list. -/
def digitsVal (ds : List Nat) : Nat :=
  ds.foldl (fun a d => 10 * a + d) 0

theorem digitsVal_nil : digitsVal [] = 0 := rfl

theorem foldl_digits_go (ds : List Nat) (a : Nat) :
    ds.foldl (fun a d => 10 * a + d) a = a * 10 ^ ds.length + ds.foldl (fun a d => 10 * a + d) 0 := by
  induction ds generalizing a with
  | nil => simp
  | cons d ds ih =>
    simp only [List.foldl_cons, List.length_cons]
    rw [ih (10 * a + d), ih (10 * 0 + d)]
    ring

theorem digitsVal_cons (d : Nat) (ds : List Nat) :
    digitsVal (d :: ds) = d * 10 ^ ds.length + digitsVal ds := by
  simp only [digitsVal, List.foldl_cons]
  rw [foldl_digits_go ds (10 * 0 + d)]
  ring_nf

theorem padDigits_length (w n : Nat) : (padDigits w n).length = w := by
  induction w generalizing n with
  | zero => rfl
  | succ w ih => simp [padDigits, ih]

theorem padDigits_digit_lt (w n : Nat) (hn : n < 10 ^ w) :
    ∀ d ∈ padDigits w n, d < 10 := by
  induction w generalizing n with
  | zero => intro d hd; simp [padDigits] at hd
  | succ w ih =>
    intro d hd
    simp only [padDigits, List.mem_cons] at hd
    rcases hd with rfl | hd
    · have h10 : (0:Nat) < 10 ^ w := Nat.pos_pow_of_pos w (by norm_num)
      have : n < 10 * 10 ^ w := by rw [pow_succ] at hn; omega
      exact Nat.div_lt_of_lt_mul (by omega)
    · exact ih (n % 10 ^ w) (Nat.mod_lt n (Nat.pos_pow_of_pos w (by norm_num))) d hd

theorem digitsVal_padDigits (w n : Nat) (hn : n < 10 ^ w) :
    digitsVal (padDigits w n) = n := by
  induction w generalizing n with
  | zero =>
    interval_cases n
    rfl
  | succ w ih =>
    have h10 : (0:Nat) < 10 ^ w := Nat.pos_pow_of_pos w (by norm_num)
    simp only [padDigits]
    rw [digitsVal_cons, padDigits_length,
      ih (n % 10 ^ w) (Nat.mod_lt n h10)]
    exact Nat.div_add_mod' n (10 ^ w)

theorem padDigits_injOn {w a b : Nat} (ha : a < 10 ^ w) (hb : b < 10 ^ w)
    (h : padDigits w a = padDigits w b) : a = b := by
  have := digitsVal_padDigits w a ha
  have := digitsVal_padDigits w b hb
  rw [h] at *
  omega

/-- Digit character of a digit (`'0'`–`'9'`), as used in decimal rendering. -/
def digitChar (d : Nat) : Char := Nat.digitChar d

/-- Inverse of `digitChar`: parse one character as a decimal digit
(`None` for a non-digit). -/
def charDigit (c : Char) : Option Nat :=
  if c.toNat ≥ 48 ∧ c.toNat ≤ 57 then some (c.toNat - 48) else none

theorem charDigit_digitChar_all : ∀ d < 10, charDigit (digitChar d) = some d := by
  decide

theorem charDigit_digitChar {d : Nat} (hd : d < 10) :
    charDigit (digitChar d) = some d :=
  charDigit_digitChar_all d hd

theorem digitChar_lt_all : ∀ a < 10, ∀ b < 10, (digitChar a < digitChar b ↔ a < b) := by
  decide

theorem digitChar_lt_iff {a b : Nat} (ha : a < 10) (hb : b < 10) :
    digitChar a < digitChar b ↔ a < b :=
  digitChar_lt_all a ha b hb

theorem digitChar_eq_all : ∀ a < 10, ∀ b < 10, (digitChar a = digitChar b ↔ a = b) := by
  decide

theorem digitChar_eq_iff {a b : Nat} (ha : a < 10) (hb : b < 10) :
    digitChar a = digitChar b ↔ a = b :=
  digitChar_eq_all a ha b hb

/-- `usedPct` from the dashboard's budget comparison
(`0 if r["Budget"] == 0 else min(100, (r["Spent"]/r["Budget"]*100))`,
`src/app.py` line 207). -/
def usedPct (spent budget : ℚ) : ℚ :=
  if budget = 0 then 0 else min 100 (spent / budget * 100)

/-- Python `int(...)` truncation toward zero on a rational. -/
def pyInt (q : ℚ) : ℤ :=
  if 0 ≤ q then ⌊q⌋ else ⌈q⌉

/-- Goal progress percentage from the goals tab
(`int(min(100, (current/target*100) if target > 0 else 0))`,
`src/app.py` line 288). -/
def goalProgress (target current : ℚ) : ℤ :=
  pyInt (min 100 (if 0 < target then current / target * 100 else 0))

/-- A raw spreadsheet cell as returned by `get_all_records`: either a
number or a string. -/
inductive Cell where
  | num (q : ℚ)
  | str (s : String)
deriving DecidableEq, Repr

/-- Parse a run of decimal digit characters (none if empty or a
non-digit occurs). -/
def parseNatDigits : List Char → Option Nat
  | [] => none
  | cs => cs.foldlM (fun a c => (charDigit c).map (fun d => 10 * a + d)) 0

/-- Parse an unsigned decimal numeral, optionally with a fractional part
after a single dot. -/
def parseUnsigned (cs : List Char) : Option ℚ :=
  let ip := cs.takeWhile (fun c => c != '.')
  match cs.dropWhile (fun c => c != '.') with
  | [] => (parseNatDigits ip).map (fun n => (n : ℚ))
  | _ :: frac =>
    match parseNatDigits ip, parseNatDigits frac with
    | some n, some f => some ((n : ℚ) + (f : ℚ) / (10 : ℚ) ^ frac.length)
    | _, _ => none

/-- Parse a signed decimal numeral. -/
def parseDecimalChars : List Char → Option ℚ
  | '-' :: cs => (parseUnsigned cs).map (fun q => -q)
  | cs => parseUnsigned cs

/-- Numeric reading of a cell, modelling `pd.to_numeric(x, errors="coerce")`:
a number is kept, a string is parsed as a decimal numeral, anything else
becomes missing (NaN). -/
def toNumeric (c : Cell) : Option ℚ :=
  match c with
  | Cell.num q => some q
  | Cell.str s => parseDecimalChars s.data

/-- `pd.to_numeric(x, errors="coerce").fillna(0.0)`: parse failures are
coerced to `0` and the row is kept (`src/app.py` lines 120, 125, 130–131). -/
def coerceNumeric (c : Cell) : ℚ := (toNumeric c).getD 0

/-- Two decimal digit characters as a number (`None` if either is not a
digit). -/
def twoDigits (a b : Char) : Option Nat :=
  match charDigit a, charDigit b with
  | some x, some y => some (10 * x + y)
  | _, _ => none

/-- Four decimal digit characters as a number. -/
def fourDigits (a b c d : Char) : Option Nat :=
  match charDigit a, charDigit b, charDigit c, charDigit d with
  | some x1, some x2, some x3, some x4 => some (10 * (10 * (10 * x1 + x2) + x3) + x4)
  | _, _, _, _ => none

/-- Model of `pd.to_datetime` on the date strings this application reads
and writes: an ISO `YYYY-MM-DD` calendar date, optionally followed by a
time of day `hh:mm:ss` (returned as seconds); anything else fails, which
`pd.to_datetime` surfaces as an exception for the whole batch. -/
def parseIsoDate (s : String) : Option (Date × Nat) :=
  match s.data with
  | [y1, y2, y3, y4, h1, m1, m2, h2, d1, d2] =>
    if h1 = '-' ∧ h2 = '-' then
      match fourDigits y1 y2 y3 y4, twoDigits m1 m2, twoDigits d1 d2 with
      | some y, some mo, some da => some (⟨y, mo, da⟩, 0)
      | _, _, _ => none
    else none
  | [y1, y2, y3, y4, h1, m1, m2, h2, d1, d2, sp, hh1, hh2, c1, mi1, mi2, c2, s1, s2] =>
    if h1 = '-' ∧ h2 = '-' ∧ sp = ' ' ∧ c1 = ':' ∧ c2 = ':' then
      match fourDigits y1 y2 y3 y4, twoDigits m1 m2, twoDigits d1 d2,
            twoDigits hh1 hh2, twoDigits mi1 mi2, twoDigits s1 s2 with
      | some y, some mo, some da, some hh, some mi, some ss =>
          some (⟨y, mo, da⟩, (hh * 60 + mi) * 60 + ss)
      | _, _, _, _, _, _ => none
    else none
  | _ => none

/-- The characters of `str(date)` for a Python `datetime.date`:
`YYYY-MM-DD`, zero padded. -/
def isoChars (dt : Date) : List Char :=
  (padDigits 4 dt.y).map digitChar ++ '-' ::
    ((padDigits 2 dt.m).map digitChar ++ '-' :: (padDigits 2 dt.d).map digitChar)

/-- `str(date_in)`, the serialized date the add-expense form appends
(`src/app.py` line 154). -/
def isoStr (dt : Date) : String := String.mk (isoChars dt)

/-- A raw Transactions row (column values as loaded by
`get_all_records`). -/
structure RawTxn where
  date : String
  category : String
  description : String
  amount : Cell
  paymentMethod : String
  notes : String
  payer : String
deriving DecidableEq, Repr

/-- A normalized transaction (`src/app.py` lines 119–120): parsed date
plus time-of-day, numeric amount. -/
structure Txn where
  date : Date
  timeOfDay : Nat
  category : String
  description : String
  amount : ℚ
  paymentMethod : String
  notes : String
  payer : String
deriving DecidableEq, Repr

/-- Normalization of one Transactions row: the date must parse
(`pd.to_datetime` raises otherwise), the amount is coerced. -/
def normalizeTxnRow (r : RawTxn) : Option Txn :=
  (parseIsoDate r.date).map (fun p =>
    { date := p.1, timeOfDay := p.2, category := r.category,
      description := r.description, amount := coerceNumeric r.amount,
      paymentMethod := r.paymentMethod, notes := r.notes, payer := r.payer })

/-- Normalization of the whole Transactions batch: any unparsable date
fails the batch (`pd.to_datetime(transactions_df["Date"])` raises),
`src/app.py` line 119. -/
def normalizeTransactions : List RawTxn → Option (List Txn)
  | [] => some []
  | r :: rs =>
    match normalizeTxnRow r, normalizeTransactions rs with
    | some t, some ts => some (t :: ts)
    | _, _ => none

/-- Normalization of the Budgets table (`src/app.py` line 125): the
`Monthly Budget` column is numerically coerced, every row kept. -/
def normalizeBudgets (raw : List (String × Cell)) : List (String × ℚ) :=
  raw.map (fun r => (r.1, coerceNumeric r.2))

/-- Normalization of the Goals table (`src/app.py` lines 130–131). -/
def normalizeGoals (raw : List (String × Cell × Cell)) : List (String × ℚ × ℚ) :=
  raw.map (fun r => (r.1, coerceNumeric r.2.1, coerceNumeric r.2.2))

/-- `update_budget_row` (`src/app.py` lines 77–84) on the Budgets table:
find the first row whose `Category` (as a string) equals the given
category; if found overwrite only its value column (`ws.update(f"B{idx}",
float(amount))`), else append `[category, float(amount)]`. -/
def update_budget_row (category : String) (amount : ℚ)
    (table : List (String × Cell)) : List (String × Cell) :=
  match table.findIdx? (fun r => r.1 == category) with
  | some i => table.modify (fun r => (r.1, Cell.num amount)) i
  | none => table ++ [(category, Cell.num amount)]

/-- `update_goal_row` (`src/app.py` lines 86–93) on the Goals table:
first row whose `Goal Name` equals the given name has its `B` and `C`
value columns overwritten, else the full tuple is appended. -/
def update_goal_row (goalName : String) (target current : ℚ)
    (table : List (String × Cell × Cell)) : List (String × Cell × Cell) :=
  match table.findIdx? (fun r => r.1 == goalName) with
  | some i => table.modify (fun r => (r.1, Cell.num target, Cell.num current)) i
  | none => table ++ [(goalName, Cell.num target, Cell.num current)]

/-- The worksheet seen by `gspread`: a header row followed by the data
rows; `ws.update` addresses rows 1-based, so data row `i` (0-based in the
dataframe) lives at worksheet row `i + 2`. -/
def writeSheetRow {α : Type} (sheet : List α) (oneBasedRow : Nat) (f : α → α) : List α :=
  sheet.modify f (oneBasedRow - 1)

/-- The remote spreadsheet's three tables. -/
structure Store where
  transactions : List RawTxn
  budgets : List (String × Cell)
  goals : List (String × Cell × Cell)
deriving DecidableEq, Repr

/-- Application state: the backing store plus the `@st.cache_data`
per-table read cache of `load_sheet_dataframe` (`src/app.py` line 62). -/
structure AppState where
  store : Store
  cacheTransactions : Option (List RawTxn)
  cacheBudgets : Option (List (String × Cell))
  cacheGoals : Option (List (String × Cell × Cell))
deriving DecidableEq, Repr

/-- `load_sheet_dataframe(TRANSACTIONS_SHEET)`: serve from cache if
present, else read the store and cache the result. -/
def loadTransactions (s : AppState) : List RawTxn × AppState :=
  match s.cacheTransactions with
  | some d => (d, s)
  | none => (s.store.transactions, { s with cacheTransactions := some s.store.transactions })

/-- `load_sheet_dataframe(BUDGETS_SHEET)`. -/
def loadBudgets (s : AppState) : List (String × Cell) × AppState :=
  match s.cacheBudgets with
  | some d => (d, s)
  | none => (s.store.budgets, { s with cacheBudgets := some s.store.budgets })

/-- `load_sheet_dataframe(GOALS_SHEET)`. -/
def loadGoals (s : AppState) : List (String × Cell × Cell) × AppState :=
  match s.cacheGoals with
  | some d => (d, s)
  | none => (s.store.goals, { s with cacheGoals := some s.store.goals })

/-- `load_sheet_dataframe.clear()`: drop every cached table. -/
def clearCache (s : AppState) : AppState :=
  { s with cacheTransactions := none, cacheBudgets := none, cacheGoals := none }

/-- `append_transaction` (`src/app.py` lines 73–75): load the worksheet
handle (which populates the read cache) and append the row to the store;
the cache is NOT touched here. -/
def append_transaction (r : RawTxn) (s : AppState) : AppState :=
  let s1 := (loadTransactions s).2
  { s1 with store := { s1.store with transactions := s1.store.transactions ++ [r] } }

/-- The add-expense submit handler (`src/app.py` lines 152–159): build
the row `[str(date_in), category, desc, float(amount), method, notes,
payer]`, append it, then `load_sheet_dataframe.clear()`. -/
def submitExpense (dt : Date) (cat desc : String) (amt : ℚ)
    (method notes payer : String) (s : AppState) : AppState :=
  clearCache (append_transaction
    { date := isoStr dt, category := cat, description := desc,
      amount := Cell.num amt, paymentMethod := method, notes := notes,
      payer := payer } s)

/-- `update_budget_row` as executed against the app state: the lookup
runs on the loaded (possibly cached) dataframe, the write goes to the
store. -/
def updateBudgetWrite (dfLoaded : List (String × Cell)) (category : String)
    (amount : ℚ) (sheet : List (String × Cell)) : List (String × Cell) :=
  match dfLoaded.findIdx? (fun r => r.1 == category) with
  | some i => sheet.modify (fun r => (r.1, Cell.num amount)) i
  | none => sheet ++ [(category, Cell.num amount)]

/-- The budget-form submit handler (`src/app.py` lines 247–254):
upsert, then `load_sheet_dataframe.clear()`. -/
def submitBudget (category : String) (amount : ℚ) (s : AppState) : AppState :=
  let res := loadBudgets s
  clearCache { res.2 with store := { res.2.store with
    budgets := updateBudgetWrite res.1 category amount res.2.store.budgets } }

/-- `update_goal_row` as executed against the app state. -/
def updateGoalWrite (dfLoaded : List (String × Cell × Cell)) (goalName : String)
    (target current : ℚ) (sheet : List (String × Cell × Cell)) :
    List (String × Cell × Cell) :=
  match dfLoaded.findIdx? (fun r => r.1 == goalName) with
  | some i => sheet.modify (fun r => (r.1, Cell.num target, Cell.num current)) i
  | none => sheet ++ [(goalName, Cell.num target, Cell.num current)]

/-- The goal-form submit handler (`src/app.py` lines 272–279). -/
def submitGoal (goalName : String) (target current : ℚ) (s : AppState) : AppState :=
  let res := loadGoals s
  clearCache { res.2 with store := { res.2.store with
    goals := updateGoalWrite res.1 goalName target current res.2.store.goals } }

/-- The sidebar date-range mask (`src/app.py` line 169): calendar date of
the timestamp compared inclusively against both ends; the time of day
plays no part. -/
def inDateRange (startD endD : Date) (t : Txn) : Bool :=
  decide (startD ≤ t.date) && decide (t.date ≤ endD)

/-- `df_filtered = transactions_df.loc[mask]` (`src/app.py` lines 169–170). -/
def filterByDateRange (txns : List Txn) (startD endD : Date) : List Txn :=
  txns.filter (inDateRange startD endD)

/-- The characters of `str(ts.to_period("M"))`: `YYYY-MM`, zero padded. -/
def monthKeyChars (t : Txn) : List Char :=
  (padDigits 4 t.date.y).map digitChar ++ '-' :: (padDigits 2 t.date.m).map digitChar

/-- The month key `"YYYY-MM"` of a transaction
(`df["Date"].dt.to_period("M").astype(str)`, `src/app.py` line 173). -/
def monthKey (t : Txn) : String := String.mk (monthKeyChars t)

/-- `months = df_filtered["Date"].dt.to_period("M").astype(str).sort_values().unique()`
(`src/app.py` line 173): the month keys, sorted ascending, without
duplicates. -/
def monthsOf (txns : List Txn) : List String :=
  ((txns.map monthKey).insertionSort (· ≤ ·)).dedup

/-- The default month selection `index=len(months)-1`
(`src/app.py` line 177): the last month key. -/
def defaultSelectedMonth (txns : List Txn) : Option String :=
  (monthsOf txns).getLast?

/-- `df_month = df_filtered[df_filtered["Date"].dt.to_period("M").astype(str) == selected_month]`
(`src/app.py` line 178). -/
def monthPartition (txns : List Txn) (k : String) : List Txn :=
  txns.filter (fun t => monthKey t == k)

/-- Descending sort on the summed amount
(`.sort_values("Amount", ascending=False)`). -/
def sortByAmountDesc (l : List (String × ℚ)) : List (String × ℚ) :=
  l.insertionSort (fun a b => b.2 ≤ a.2)

/-- `cat_summary = df_month.groupby("Category")["Amount"].sum().reset_index().sort_values("Amount", ascending=False)`
(`src/app.py` line 191): one row per distinct category with the summed
amount, ordered by amount descending. -/
def sumByCategory (txns : List Txn) : List (String × ℚ) :=
  sortByAmountDesc
    ((((txns.map Txn.category).insertionSort (· ≤ ·)).dedup).map
      (fun c => (c, ((txns.filter (fun t => t.category == c)).map Txn.amount).sum)))

/-- One row of the budget-vs-actual table. -/
structure CompRow where
  category : String
  spent : ℚ
  budget : ℚ
  usedPct : ℚ
deriving DecidableEq, Repr

/-- `merged = pd.merge(cat_summary, budgets_df, on="Category", how="right").fillna(0)`
plus the `UsedPct` column (`src/app.py` lines 203–207): anchored on the
budgets table, with a missing category sum filled with `0`. -/
def budgetComparison (catSums budgets : List (String × ℚ)) : List CompRow :=
  budgets.map (fun b =>
    let spent := ((catSums.find? (fun r => r.1 == b.1)).map Prod.snd).getD 0
    { category := b.1, spent := spent, budget := b.2,
      usedPct := usedPct spent b.2 })

/-- The empty-table default schema for Transactions
(`src/app.py` line 117). -/
def transactionsEmptyColumns : List String :=
  ["Date", "Category", "Description", "Amount", "Payment Method", "Notes"]

/-- The empty-table default schema for Budgets (`src/app.py` line 123). -/
def budgetsEmptyColumns : List String := ["Category", "Monthly Budget"]

/-- The empty-table default schema for Goals (`src/app.py` line 128). -/
def goalsEmptyColumns : List String := ["Goal Name", "Target Amount", "Current Saved"]

/-- Modelled from the spec: the canonical Transactions schema of the
backing store (spec §6), which is also the column order of the row the
add-expense form appends (`src/app.py` line 154). The spec's canonical
empty schema for Transactions; `src/app.py` line 117 is supposed to
materialize it. -/
def specTransactionsColumns : List String :=
  ["Date", "Category", "Description", "Amount", "Payment Method", "Notes", "Payer"]

/-- Columns of a loaded-and-normalized table: an empty load is replaced
by the entity's default schema (`src/app.py` lines 116–117, 122–123,
127–128); a non-empty load keeps the sheet's header columns. -/
def normalizedColumns (header : List String) (emptyDefault : List String)
    (rowCount : Nat) : List String :=
  if rowCount = 0 then emptyDefault else header

theorem find?_mem_of_eq_some {l : List (String × ℚ)} {p : String × ℚ → Bool}
    {r : String × ℚ} (h : l.find? p = some r) : r ∈ l :=
  List.mem_of_find?_eq_some h

/-- C1, counterexample: the claim asserts `usedPct ∈ [0, 100]` regardless
of the signs of the inputs, but a negative spent amount with a positive
budget yields a negative `usedPct` (`min` only clamps from above). -/
theorem claim1_counterexample :
    usedPct (-50) 100 < 0 ∧
    (budgetComparison [("Food", -50)] [("Food", 100)]).map CompRow.usedPct
      = [usedPct (-50) 100] := by
  constructor
  · norm_num [usedPct]
  · simp [budgetComparison, List.find?]

/-- C1 (amended): every `usedPct` the budget comparison produces equals 0
when that row's budget is 0 and otherwise equals spent/budget*100 clamped
above at 100 (so spent=520 against budget=500 yields 100); it lies in
[0, 100] provided the spent sums and budgets are non-negative (not for
arbitrary signs). -/
theorem claim1_amended (catSums budgets : List (String × ℚ))
    (hs : ∀ r ∈ catSums, 0 ≤ r.2) (hb : ∀ b ∈ budgets, 0 ≤ b.2) :
    (∀ e ∈ budgetComparison catSums budgets,
      (0 ≤ e.usedPct ∧ e.usedPct ≤ 100) ∧
      (e.budget = 0 → e.usedPct = 0) ∧
      (e.budget ≠ 0 → e.usedPct = min 100 (e.spent / e.budget * 100))) ∧
    usedPct 520 500 = 100 := by
  constructor
  · intro e he
    simp only [budgetComparison, List.mem_map] at he
    obtain ⟨b, hbmem, rfl⟩ := he
    set spent := ((catSums.find? (fun r => r.1 == b.1)).map Prod.snd).getD 0 with hspent
    have hsp : 0 ≤ spent := by
      rw [hspent]
      cases hfind : catSums.find? (fun r => r.1 == b.1) with
      | none => simp
      | some r =>
        simpa using hs r (find?_mem_of_eq_some hfind)
    have hbud : 0 ≤ b.2 := hb b hbmem
    refine ⟨?_, ?_, ?_⟩
    · simp only [usedPct]
      split
      · norm_num
      · next hne =>
        have hpos : 0 < b.2 := lt_of_le_of_ne hbud (Ne.symm hne)
        constructor
        · exact le_min (by norm_num) (by positivity)
        · exact min_le_left _ _
    · intro h0
      simp only at h0
      simp [usedPct, h0]
    · intro hne
      simp only at hne
      simp [usedPct, hne]
  · norm_num [usedPct]

theorem claim1_witness :
    (∀ e ∈ budgetComparison [("Food", (520 : ℚ))] [("Food", (500 : ℚ))],
      (0 ≤ e.usedPct ∧ e.usedPct ≤ 100) ∧
      (e.budget = 0 → e.usedPct = 0) ∧
      (e.budget ≠ 0 → e.usedPct = min 100 (e.spent / e.budget * 100))) ∧
    usedPct 520 500 = 100 :=
  claim1_amended [("Food", 520)] [("Food", 500)]
    (by intro r hr; simp only [List.mem_singleton] at hr; subst hr; norm_num)
    (by intro b hb; simp only [List.mem_singleton] at hb; subst hb; norm_num)

/-- C8, counterexample: the goals tab wraps the clamped ratio in `int(...)`,
so for target 300 and current 50 it shows 16, not the claimed (and
unrounded) `current/target*100 = 50/3`. -/
theorem claim8_counterexample :
    goalProgress 300 50 = 16 ∧ ((16 : ℚ) ≠ min 100 ((50 : ℚ) / 300 * 100)) := by
  constructor
  · have h1 : min (100 : ℚ) ((50 : ℚ) / 300 * 100) = 50 / 3 := by norm_num
    have h2 : (0:ℚ) ≤ 50 / 3 := by norm_num
    simp only [goalProgress, pyInt]
    norm_num [h1]
  · norm_num

/-- C8 (amended): `goalProgress` is total (no division error) and returns
0 whenever target ≤ 0; for a positive target it returns the integer
truncation of min(100, current/target*100), which lies in [0, 100]
whenever current is also non-negative. -/
theorem claim8_amended (target current : ℚ) :
    (target ≤ 0 → goalProgress target current = 0) ∧
    (0 < target → goalProgress target current = pyInt (min 100 (current / target * 100))) ∧
    (0 < target → 0 ≤ current →
      0 ≤ goalProgress target current ∧ goalProgress target current ≤ 100) := by
  refine ⟨?_, ?_, ?_⟩
  · intro h
    have hnot : ¬ (0 < target) := not_lt.2 h
    simp [goalProgress, hnot, pyInt]
  · intro h
    simp [goalProgress, h]
  · intro h hc
    have hx : (0:ℚ) ≤ current / target * 100 := by positivity
    have hmin0 : (0:ℚ) ≤ min 100 (current / target * 100) := le_min (by norm_num) hx
    have hmin100 : min (100:ℚ) (current / target * 100) ≤ 100 := min_le_left _ _
    simp only [goalProgress, h, if_true, pyInt, hmin0, if_pos]
    constructor
    · exact_mod_cast Int.floor_nonneg.2 hmin0
    · have : (⌊min (100:ℚ) (current / target * 100)⌋ : ℚ) ≤ 100 :=
        le_trans (Int.floor_le _) hmin100
      exact_mod_cast this
  
theorem claim8_witness :
    goalProgress 300 50 = pyInt (min 100 ((50 : ℚ) / 300 * 100)) ∧
    0 ≤ goalProgress 300 50 ∧ goalProgress 300 50 ≤ 100 :=
  ⟨(claim8_amended 300 50).2.1 (by norm_num),
   ((claim8_amended 300 50).2.2 (by norm_num) (by norm_num)).1,
   ((claim8_amended 300 50).2.2 (by norm_num) (by norm_num)).2⟩

/-- C9: evaluating the normalizer on an empty Transactions load. The
materialized default schema has six columns and omits `"Payer"`, although
the canonical schema (spec §6) — which is also the column order the
add-expense form appends — ends in `"Payer"`; the Budgets and Goals
defaults do match their canonical schemas. The claim is right about the
intended schema and the code's default is the slip. -/
theorem claim9_code_evaluation :
    normalizedColumns specTransactionsColumns transactionsEmptyColumns 0
      = transactionsEmptyColumns ∧
    transactionsEmptyColumns ≠ specTransactionsColumns ∧
    "Payer" ∉ transactionsEmptyColumns ∧
    specTransactionsColumns = transactionsEmptyColumns ++ ["Payer"] ∧
    normalizedColumns budgetsEmptyColumns budgetsEmptyColumns 0
      = ["Category", "Monthly Budget"] ∧
    normalizedColumns goalsEmptyColumns goalsEmptyColumns 0
      = ["Goal Name", "Target Amount", "Current Saved"] :=
  ⟨rfl, by decide, by decide, rfl, rfl, rfl⟩

theorem update_budget_row_cons (c : String) (a : ℚ) (r : String × Cell)
    (rs : List (String × Cell)) :
    update_budget_row c a (r :: rs) =
      if r.1 = c then (r.1, Cell.num a) :: rs else r :: update_budget_row c a rs := by
  by_cases h : r.1 = c
  · simp [update_budget_row, List.findIdx?_cons, h, List.modify_zero_cons]
  · have hb : (r.1 == c) = false := beq_eq_false_iff_ne.2 h
    simp only [update_budget_row, List.findIdx?_cons, hb, Bool.false_eq_true, if_false,
      List.findIdx?_succ, if_neg h]
    cases hf : List.findIdx? (fun x => x.1 == c) rs with
    | none => simp
    | some i => simp [List.modify_succ_cons]

theorem update_budget_row_filter_key (c : String) (a : ℚ)
    (table : List (String × Cell))
    (h : table.countP (fun r => r.1 == c) ≤ 1) :
    (update_budget_row c a table).filter (fun r => r.1 == c)
      = [(c, Cell.num a)] := by
  induction table with
  | nil => simp [update_budget_row]
  | cons r rs ih =>
    rw [update_budget_row_cons]
    by_cases hr : r.1 = c
    · rw [if_pos hr]
      have hnil : rs.filter (fun x => x.1 == c) = [] := by
        rw [List.countP_cons] at h
        simp [hr] at h
        exact List.filter_eq_nil_iff.2
          (by rintro ⟨x1, x2⟩ hx; simpa using h x1 x2 hx)
      simp [List.filter_cons, hr, hnil]
    · rw [if_neg hr]
      have hb : (r.1 == c) = false := beq_eq_false_iff_ne.2 hr
      rw [List.filter_cons, hb]
      simp only [Bool.false_eq_true, if_false]
      apply ih
      rw [List.countP_cons] at h
      omega

theorem update_budget_row_not_found (c : String) (a : ℚ)
    (table : List (String × Cell)) (h : ∀ r ∈ table, r.1 ≠ c) :
    update_budget_row c a table = table ++ [(c, Cell.num a)] := by
  have hn : table.findIdx? (fun r => r.1 == c) = none :=
    List.findIdx?_eq_none_iff.2 (fun r hr => beq_eq_false_iff_ne.2 (h r hr))
  simp [update_budget_row, hn]

theorem update_budget_row_found (c : String) (a : ℚ)
    (table : List (String × Cell)) (i : Nat)
    (h : table.findIdx? (fun r => r.1 == c) = some i) :
    update_budget_row c a table = table.modify (fun r => (r.1, Cell.num a)) i := by
  simp [update_budget_row, h]

theorem update_budget_row_getElem_other (c : String) (a : ℚ)
    (table : List (String × Cell)) (i : Nat) (r : String × Cell)
    (hi : table[i]? = some r) (hne : r.1 ≠ c) :
    (update_budget_row c a table)[i]? = some r := by
  cases hf : table.findIdx? (fun x => x.1 == c) with
  | none =>
    have hlen : i < table.length := by
      by_contra hlen
      rw [List.getElem?_eq_none (by omega)] at hi
      exact Option.noConfusion hi
    rw [update_budget_row_not_found c a table
      (fun x hx => beq_eq_false_iff_ne.1 (by
        have := List.findIdx?_eq_none_iff.1 hf x hx
        simpa using this))]
    rw [List.getElem?_append_left hlen, hi]
  | some j =>
    rw [update_budget_row_found c a table j hf, List.getElem?_modify, hi]
    have hji : j ≠ i := by
      intro heq
      subst heq
      have := List.findIdx?_of_eq_some hf
      rw [hi] at this
      simp only at this
      exact hne (by simpa using this)
    simp [hji]

theorem update_budget_row_idem (c : String) (a : ℚ)
    (table : List (String × Cell)) :
    update_budget_row c a (update_budget_row c a table)
      = update_budget_row c a table := by
  induction table with
  | nil =>
    have h1 : update_budget_row c a ([] : List (String × Cell)) = [(c, Cell.num a)] := rfl
    rw [h1, update_budget_row_cons]
    simp
  | cons r rs ih =>
    rw [update_budget_row_cons]
    by_cases hr : r.1 = c
    · rw [if_pos hr, update_budget_row_cons, if_pos hr]
    · rw [if_neg hr, update_budget_row_cons, if_neg hr, ih]

theorem modify_append_length {α : Type} (f : α → α) (pre : List α) (x : α)
    (post : List α) :
    List.modify f pre.length (pre ++ x :: post) = pre ++ f x :: post := by
  rw [List.modify_eq_take_drop, List.take_left, List.drop_left]
  rfl

theorem update_goal_row_found (g : String) (t c : ℚ)
    (table : List (String × Cell × Cell)) (i : Nat)
    (h : table.findIdx? (fun r => r.1 == g) = some i) :
    update_goal_row g t c table
      = table.modify (fun r => (r.1, Cell.num t, Cell.num c)) i := by
  simp [update_goal_row, h]

/-- C2: `update_budget_row` followed by a reload yields exactly one row
keyed by the category, carrying the new amount (also after numeric
normalization), provided the table held at most one row for that key
beforehand; the key is matched by exact string equality, an existing
match has only its value column overwritten in place (addressed at its
0-based index + 2, i.e. 1-based index plus one for the header row), a
missing key appends the full tuple, and the identical call repeated is a
no-op. -/
theorem claim2_upsert_budget (category : String) (amount : ℚ)
    (table : List (String × Cell))
    (huniq : table.countP (fun r => r.1 == category) ≤ 1) :
    ((update_budget_row category amount table).filter (fun r => r.1 == category)
        = [(category, Cell.num amount)]) ∧
    ((normalizeBudgets (update_budget_row category amount table)).filter
        (fun r => r.1 == category) = [(category, amount)]) ∧
    ((∀ r ∈ table, r.1 ≠ category) →
      update_budget_row category amount table
        = table ++ [(category, Cell.num amount)]) ∧
    (∀ (i : Nat) (r : String × Cell), table[i]? = some r → r.1 ≠ category →
      (update_budget_row category amount table)[i]? = some r) ∧
    (∀ i, table.findIdx? (fun r => r.1 == category) = some i →
      update_budget_row category amount table
          = table.modify (fun r => (r.1, Cell.num amount)) i ∧
      ∀ (header : String × Cell) (f : String × Cell → String × Cell),
        writeSheetRow (header :: table) (i + 2) f
          = header :: table.modify f i) ∧
    (update_budget_row category amount (update_budget_row category amount table)
      = update_budget_row category amount table) := by
  refine ⟨update_budget_row_filter_key category amount table huniq, ?_,
    update_budget_row_not_found category amount table, ?_, ?_,
    update_budget_row_idem category amount table⟩
  · have hkey := update_budget_row_filter_key category amount table huniq
    have hcomp : ((fun r : String × ℚ => r.1 == category) ∘
        (fun r : String × Cell => (r.1, coerceNumeric r.2)))
        = (fun r : String × Cell => r.1 == category) := rfl
    simp only [normalizeBudgets, List.filter_map, hcomp, hkey]
    rfl
  · intro i r hi hne
    exact update_budget_row_getElem_other category amount table i r hi hne
  · intro i hf
    refine ⟨update_budget_row_found category amount table i hf, ?_⟩
    intro header f
    simp [writeSheetRow, List.modify_succ_cons, Nat.add_sub_cancel]

theorem claim2_witness :
    ((update_budget_row "Food" 250
        [("Food", Cell.num 100), ("Rent", Cell.num 800)]).filter
        (fun r => r.1 == "Food") = [("Food", Cell.num 250)]) ∧
    ((normalizeBudgets (update_budget_row "Food" 250
        [("Food", Cell.num 100), ("Rent", Cell.num 800)])).filter
        (fun r => r.1 == "Food") = [("Food", (250 : ℚ))]) ∧
    (update_budget_row "Food" 250 (update_budget_row "Food" 250
        [("Food", Cell.num 100), ("Rent", Cell.num 800)])
      = update_budget_row "Food" 250
        [("Food", Cell.num 100), ("Rent", Cell.num 800)]) :=
  ⟨(claim2_upsert_budget "Food" 250
      [("Food", Cell.num 100), ("Rent", Cell.num 800)] (by decide)).1,
   (claim2_upsert_budget "Food" 250
      [("Food", Cell.num 100), ("Rent", Cell.num 800)] (by decide)).2.1,
   (claim2_upsert_budget "Food" 250
      [("Food", Cell.num 100), ("Rent", Cell.num 800)] (by decide)).2.2.2.2.2⟩

/-- C10: when a table already holds several rows with the same natural
key, the upsert rewrites only the value column(s) of the first matching
row (lowest index); every later duplicate and every other row is left
unchanged, and nothing is deduplicated — for budgets and for goals. -/
theorem claim10_duplicate_keys (category : String) (amount : ℚ)
    (pre post : List (String × Cell)) (v : Cell)
    (hpre : ∀ r ∈ pre, r.1 ≠ category)
    (goalName : String) (target current : ℚ)
    (preg postg : List (String × Cell × Cell)) (vg : Cell × Cell)
    (hpreg : ∀ r ∈ preg, r.1 ≠ goalName) :
    update_budget_row category amount (pre ++ (category, v) :: post)
      = pre ++ (category, Cell.num amount) :: post ∧
    update_goal_row goalName target current (preg ++ (goalName, vg) :: postg)
      = preg ++ (goalName, Cell.num target, Cell.num current) :: postg := by
  constructor
  · have hn : pre.findIdx? (fun r => r.1 == category) = none :=
      List.findIdx?_eq_none_iff.2 (fun r hr => beq_eq_false_iff_ne.2 (hpre r hr))
    have hfind : (pre ++ (category, v) :: post).findIdx?
        (fun r => r.1 == category) = some pre.length := by
      rw [List.findIdx?_append, hn]
      simp [List.findIdx?_cons]
    rw [update_budget_row_found category amount _ pre.length hfind]
    exact modify_append_length _ pre _ post
  · have hn : preg.findIdx? (fun r => r.1 == goalName) = none :=
      List.findIdx?_eq_none_iff.2 (fun r hr => beq_eq_false_iff_ne.2 (hpreg r hr))
    have hfind : (preg ++ (goalName, vg) :: postg).findIdx?
        (fun r => r.1 == goalName) = some preg.length := by
      rw [List.findIdx?_append, hn]
      simp [List.findIdx?_cons]
    rw [update_goal_row_found goalName target current _ preg.length hfind]
    exact modify_append_length _ preg _ postg

theorem claim10_witness :
    update_budget_row "Food" 250
        ([("Rent", Cell.num 800)] ++ ("Food", Cell.num 100) :: [("Food", Cell.num 999)])
      = [("Rent", Cell.num 800)] ++ ("Food", Cell.num 250) :: [("Food", Cell.num 999)] ∧
    update_goal_row "Trip" 1200 300
        ([("Car", Cell.num 5000, Cell.num 100)] ++
          ("Trip", Cell.num 10, Cell.num 1) :: [("Trip", Cell.num 9, Cell.num 9)])
      = [("Car", Cell.num 5000, Cell.num 100)] ++
          ("Trip", Cell.num 1200, Cell.num 300) :: [("Trip", Cell.num 9, Cell.num 9)] :=
  claim10_duplicate_keys "Food" 250 [("Rent", Cell.num 800)] [("Food", Cell.num 999)]
    (Cell.num 100) (by decide) "Trip" 1200 300
    [("Car", Cell.num 5000, Cell.num 100)] [("Trip", Cell.num 9, Cell.num 9)]
    (Cell.num 10, Cell.num 1) (by decide)

/-- C5: `filterByDateRange` returns exactly the transactions whose
calendar date lies in `[start, end]`, inclusive on both ends, counted
with multiplicity; the mask ignores the time-of-day component; and with
`start = end = d` it returns exactly the transactions dated `d`. -/
theorem claim5_filter_date_range (txns : List Txn) (s e : Date) (hse : s ≤ e) :
    (∀ t : Txn, (filterByDateRange txns s e).count t
      = if s ≤ t.date ∧ t.date ≤ e then txns.count t else 0) ∧
    (∀ (t : Txn) (n : Nat),
      inDateRange s e { t with timeOfDay := n } = inDateRange s e t) ∧
    (filterByDateRange txns s s = txns.filter (fun t => t.date == s)) := by
  refine ⟨?_, ?_, ?_⟩
  · intro t
    by_cases hp : s ≤ t.date ∧ t.date ≤ e
    · rw [if_pos hp]
      apply List.count_filter
      simp [inDateRange, hp.1, hp.2]
    · rw [if_neg hp]
      rw [List.count_eq_zero]
      intro hmem
      rcases List.mem_filter.1 hmem with ⟨-, hmask⟩
      simp only [inDateRange, Bool.and_eq_true, decide_eq_true_eq] at hmask
      exact hp hmask
  · intro t n
    rfl
  · apply List.filter_congr
    intro t ht
    by_cases h : t.date = s
    · simp [inDateRange, h, Date.le_refl s]
    · have hne : (t.date == s) = false := beq_eq_false_iff_ne.2 h
      rw [hne]
      by_cases h1 : s ≤ t.date
      · by_cases h2 : t.date ≤ s
        · exact absurd (Date.le_antisymm h2 h1) h
        · simp [inDateRange, h1, h2]
      · simp [inDateRange, h1]

theorem claim5_witness :
    ((filterByDateRange
        [⟨⟨2025, 10, 7⟩, 0, "Food", "Lunch", 12, "Cash", "", "You"⟩]
        ⟨2025, 10, 1⟩ ⟨2025, 10, 31⟩).count
        ⟨⟨2025, 10, 7⟩, 0, "Food", "Lunch", 12, "Cash", "", "You"⟩
      = if (⟨2025, 10, 1⟩ : Date) ≤ (⟨⟨2025, 10, 7⟩, 0, "Food", "Lunch", 12, "Cash", "", "You"⟩ : Txn).date
          ∧ (⟨⟨2025, 10, 7⟩, 0, "Food", "Lunch", 12, "Cash", "", "You"⟩ : Txn).date ≤ ⟨2025, 10, 31⟩
        then ([⟨⟨2025, 10, 7⟩, 0, "Food", "Lunch", 12, "Cash", "", "You"⟩] : List Txn).count
          ⟨⟨2025, 10, 7⟩, 0, "Food", "Lunch", 12, "Cash", "", "You"⟩
        else 0) ∧
    (filterByDateRange
        [⟨⟨2025, 10, 7⟩, 0, "Food", "Lunch", 12, "Cash", "", "You"⟩]
        ⟨2025, 10, 7⟩ ⟨2025, 10, 7⟩
      = List.filter (fun t => t.date == ⟨2025, 10, 7⟩)
        [⟨⟨2025, 10, 7⟩, 0, "Food", "Lunch", 12, "Cash", "", "You"⟩]) :=
  ⟨(claim5_filter_date_range
      [⟨⟨2025, 10, 7⟩, 0, "Food", "Lunch", 12, "Cash", "", "You"⟩]
      ⟨2025, 10, 1⟩ ⟨2025, 10, 31⟩ (by decide)).1
      ⟨⟨2025, 10, 7⟩, 0, "Food", "Lunch", 12, "Cash", "", "You"⟩,
   (claim5_filter_date_range
      [⟨⟨2025, 10, 7⟩, 0, "Food", "Lunch", 12, "Cash", "", "You"⟩]
      ⟨2025, 10, 7⟩ ⟨2025, 10, 7⟩ (Date.le_refl ⟨2025, 10, 7⟩)).2.2⟩

theorem mem_sumByCategory_keys (txns : List Txn) (c : String) :
    c ∈ (sumByCategory txns).map Prod.fst ↔ c ∈ txns.map Txn.category := by
  unfold sumByCategory sortByAmountDesc
  rw [((List.perm_insertionSort _ _).map Prod.fst).mem_iff]
  simp only [List.map_map]
  have hid : (Prod.fst ∘ fun c : String =>
      (c, ((txns.filter (fun t => t.category == c)).map Txn.amount).sum)) = id := rfl
  rw [hid, List.map_id, List.mem_dedup, List.mem_insertionSort]

theorem budgetComparison_categories (catSums budgets : List (String × ℚ)) :
    (budgetComparison catSums budgets).map CompRow.category
      = budgets.map Prod.fst := by
  simp only [budgetComparison, List.map_map]
  rfl

/-- C3: the budget comparison is anchored on the Budgets table — it has
exactly one entry per budgeted category (under the invariant that budget
keys are unique), a budgeted category with no transactions appears with
spent = 0, and a category with transactions but no Budgets row appears in
the per-category sums but not in the comparison. -/
theorem claim3_join_anchored_on_budgets (txns : List Txn)
    (budgets : List (String × ℚ)) (hnodup : (budgets.map Prod.fst).Nodup) :
    ((budgetComparison (sumByCategory txns) budgets).map CompRow.category
        = budgets.map Prod.fst) ∧
    (∀ c : String, c ∈ budgets.map Prod.fst →
      (budgetComparison (sumByCategory txns) budgets).countP
        (fun e => e.category == c) = 1) ∧
    (∀ b ∈ budgets, b.1 ∉ txns.map Txn.category →
      ∀ e ∈ budgetComparison (sumByCategory txns) budgets,
        e.category = b.1 → e.spent = 0) ∧
    (∀ c : String, c ∈ txns.map Txn.category → c ∉ budgets.map Prod.fst →
      (c ∈ (sumByCategory txns).map Prod.fst ∧
       ∀ e ∈ budgetComparison (sumByCategory txns) budgets,
         e.category ≠ c)) := by
  refine ⟨budgetComparison_categories (sumByCategory txns) budgets, ?_, ?_, ?_⟩
  · intro c hc
    have h1 : (budgetComparison (sumByCategory txns) budgets).countP
        (fun e => e.category == c)
        = ((budgetComparison (sumByCategory txns) budgets).map
            CompRow.category).countP (fun x => x == c) := by
      rw [List.countP_map]
      rfl
    rw [h1, budgetComparison_categories,
      ← List.count_eq_countP c (budgets.map Prod.fst)]
    exact List.count_eq_one_of_mem hnodup hc
  · intro b hb hnot e he hcat
    simp only [budgetComparison, List.mem_map] at he
    obtain ⟨b2, hb2, rfl⟩ := he
    simp only at hcat
    have hkeys : b2.1 ∉ (sumByCategory txns).map Prod.fst := by
      rw [mem_sumByCategory_keys]
      rw [hcat]
      exact hnot
    have hfind : (sumByCategory txns).find? (fun r => r.1 == b2.1) = none := by
      rw [List.find?_eq_none]
      intro x hx hbeq
      exact hkeys (List.mem_map.2 ⟨x, hx, (beq_iff_eq.1 hbeq).symm ▸ rfl⟩)
    simp [hfind]
  · intro c hc hnb
    constructor
    · rw [mem_sumByCategory_keys]
      exact hc
    · intro e he hceq
      have : c ∈ budgets.map Prod.fst := by
        rw [← budgetComparison_categories (sumByCategory txns) budgets]
        exact List.mem_map.2 ⟨e, he, hceq⟩
      exact hnb this

theorem claim3_witness :
    ((budgetComparison
        (sumByCategory [⟨⟨2025, 10, 3⟩, 0, "Snacks", "Chips", 4, "Cash", "", "You"⟩])
        [("Food", (500 : ℚ))]).map CompRow.category = ["Food"]) ∧
    ("Snacks" ∈ (sumByCategory
        [⟨⟨2025, 10, 3⟩, 0, "Snacks", "Chips", 4, "Cash", "", "You"⟩]).map Prod.fst ∧
      ∀ e ∈ budgetComparison
          (sumByCategory [⟨⟨2025, 10, 3⟩, 0, "Snacks", "Chips", 4, "Cash", "", "You"⟩])
          [("Food", (500 : ℚ))],
        e.category ≠ "Snacks") :=
  ⟨(claim3_join_anchored_on_budgets
      [⟨⟨2025, 10, 3⟩, 0, "Snacks", "Chips", 4, "Cash", "", "You"⟩]
      [("Food", (500 : ℚ))] (by decide)).1,
   (claim3_join_anchored_on_budgets
      [⟨⟨2025, 10, 3⟩, 0, "Snacks", "Chips", 4, "Cash", "", "You"⟩]
      [("Food", (500 : ℚ))] (by decide)).2.2.2 "Snacks" (by decide) (by decide)⟩

theorem normalizeTransactions_none_of_bad_date (raw : List RawTxn) (r : RawTxn)
    (hr : r ∈ raw) (hbad : parseIsoDate r.date = none) :
    normalizeTransactions raw = none := by
  induction raw with
  | nil => cases hr
  | cons x xs ih =>
    rcases List.mem_cons.1 hr with rfl | hmem
    · simp [normalizeTransactions, normalizeTxnRow, hbad]
    · have hxs : normalizeTransactions xs = none := ih hmem
      cases hx : normalizeTxnRow x <;> simp [normalizeTransactions, hx, hxs]

theorem normalizeTransactions_length (raw : List RawTxn) (l : List Txn)
    (h : normalizeTransactions raw = some l) : l.length = raw.length := by
  induction raw generalizing l with
  | nil =>
    simp only [normalizeTransactions, Option.some.injEq] at h
    simp [← h]
  | cons x xs ih =>
    cases hx : normalizeTxnRow x with
    | none => simp [normalizeTransactions, hx] at h
    | some y =>
      cases hxs : normalizeTransactions xs with
      | none => simp [normalizeTransactions, hx, hxs] at h
      | some ys =>
        simp only [normalizeTransactions, hx, hxs, Option.some.injEq] at h
        subst h
        simp [ih ys hxs]

/-- C7: the normalizer's asymmetric error policy — one unparsable (or
missing) date fails the whole Transactions batch with no row silently
dropped (a successful batch keeps every row), while a numeric cell that
fails to parse is coerced to 0 and its row kept, in Budgets and Goals
alike. -/
theorem claim7_error_policy :
    (∀ (raw : List RawTxn) (r : RawTxn), raw ≠ [] → r ∈ raw →
      parseIsoDate r.date = none → normalizeTransactions raw = none) ∧
    (∀ (raw : List RawTxn) (l : List Txn), normalizeTransactions raw = some l →
      l.length = raw.length) ∧
    (∀ raw : List (String × Cell), (normalizeBudgets raw).length = raw.length) ∧
    (∀ (raw : List (String × Cell)) (i : Nat) (r : String × Cell),
      raw[i]? = some r → toNumeric r.2 = none →
      (normalizeBudgets raw)[i]? = some (r.1, 0)) ∧
    (∀ raw : List (String × Cell × Cell), (normalizeGoals raw).length = raw.length) ∧
    (∀ (raw : List (String × Cell × Cell)) (i : Nat) (r : String × Cell × Cell),
      raw[i]? = some r → toNumeric r.2.1 = none → toNumeric r.2.2 = none →
      (normalizeGoals raw)[i]? = some (r.1, 0, 0)) := by
  refine ⟨?_, normalizeTransactions_length, ?_, ?_, ?_, ?_⟩
  · intro raw r _ hr hbad
    exact normalizeTransactions_none_of_bad_date raw r hr hbad
  · intro raw
    simp [normalizeBudgets]
  · intro raw i r hi hbad
    simp [normalizeBudgets, List.getElem?_map, hi, coerceNumeric, hbad]
  · intro raw
    simp [normalizeGoals]
  · intro raw i r hi hbad1 hbad2
    simp [normalizeGoals, List.getElem?_map, hi, coerceNumeric, hbad1, hbad2]

theorem claim7_witness :
    normalizeTransactions
      [{ date := "garbage", category := "Food", description := "x",
         amount := Cell.num 5, paymentMethod := "Cash", notes := "",
         payer := "You" }] = none ∧
    (normalizeBudgets [("Food", Cell.str "oops")])[0]? = some ("Food", (0 : ℚ)) :=
  ⟨(claim7_error_policy).1
      [{ date := "garbage", category := "Food", description := "x",
         amount := Cell.num 5, paymentMethod := "Cash", notes := "",
         payer := "You" }]
      { date := "garbage", category := "Food", description := "x",
        amount := Cell.num 5, paymentMethod := "Cash", notes := "",
        payer := "You" }
      (by decide) (by decide) (by decide),
   (claim7_error_policy).2.2.2.1 [("Food", Cell.str "oops")] 0
      ("Food", Cell.str "oops") (by decide) (by decide)⟩

theorem lex_cons_iff {α : Type} [LinearOrder α] {x y : α} {xs ys : List α} :
    List.Lex (· < ·) (x :: xs) (y :: ys) ↔
      x < y ∨ (x = y ∧ List.Lex (· < ·) xs ys) := by
  constructor
  · intro h
    cases h with
    | rel h => exact Or.inl h
    | cons h => exact Or.inr ⟨rfl, h⟩
  · rintro (h | ⟨rfl, h⟩)
    · exact List.Lex.rel h
    · exact List.Lex.cons h

theorem lex_append_same {α : Type} [LinearOrder α] (xs : List α) {as bs : List α} :
    List.Lex (· < ·) (xs ++ as) (xs ++ bs) ↔ List.Lex (· < ·) as bs := by
  induction xs with
  | nil => rfl
  | cons x xs ih => simp [lex_cons_iff, lt_irrefl, ih]

theorem lex_append_of_ne {α : Type} [LinearOrder α] {as bs : List α}
    (hlen : as.length = bs.length) (hne : as ≠ bs) (u v : List α) :
    List.Lex (· < ·) (as ++ u) (bs ++ v) ↔ List.Lex (· < ·) as bs := by
  induction as generalizing bs with
  | nil =>
    cases bs with
    | nil => exact absurd rfl hne
    | cons b bs => cases hlen
  | cons a as ih =>
    cases bs with
    | nil => cases hlen
    | cons b bs =>
      simp only [List.cons_append, lex_cons_iff]
      by_cases hab : a = b
      · subst hab
        by_cases habs : as = bs
        · exact absurd (by rw [habs]) hne
        · have hlen2 : as.length = bs.length := by
            simpa using hlen
          simp [lt_irrefl, ih hlen2 habs]
      · constructor
        · rintro (h | ⟨rfl, -⟩)
          · exact Or.inl h
          · exact absurd rfl hab
        · rintro (h | ⟨rfl, -⟩)
          · exact Or.inl h
          · exact absurd rfl hab

theorem nat_lt_iff_divmod (q a b : Nat) (hq : 0 < q) :
    a < b ↔ a / q < b / q ∨ (a / q = b / q ∧ a % q < b % q) := by
  constructor
  · intro h
    rcases Nat.lt_trichotomy (a / q) (b / q) with h1 | h1 | h1
    · exact Or.inl h1
    · refine Or.inr ⟨h1, ?_⟩
      have ha := Nat.div_add_mod a q
      have hb := Nat.div_add_mod b q
      rw [h1] at ha
      omega
    · have := Nat.div_le_div_right (c := q) (le_of_lt h)
      omega
  · rintro (h1 | ⟨h1, h2⟩)
    · have hmod := Nat.mod_lt a hq
      have hdm := Nat.div_add_mod a q
      have h3 : a < q * (a / q) + q := by omega
      have h5 : q * (a / q) + q ≤ q * (b / q) := by
        have hs : a / q + 1 ≤ b / q := h1
        calc q * (a / q) + q = q * (a / q + 1) := by ring
        _ ≤ q * (b / q) := Nat.mul_le_mul_left q hs
      have hdmb := Nat.div_add_mod b q
      omega
    · have ha := Nat.div_add_mod a q
      have hb := Nat.div_add_mod b q
      rw [h1] at ha
      omega

theorem padDigits_lex_iff (w : Nat) {a b : Nat} (ha : a < 10 ^ w) (hb : b < 10 ^ w) :
    List.Lex (· < ·) (padDigits w a) (padDigits w b) ↔ a < b := by
  induction w generalizing a b with
  | zero =>
    simp only [padDigits]
    constructor
    · intro h
      exact absurd h (List.Lex.not_nil_right _ _)
    · intro h
      simp only [pow_zero] at ha hb
      omega
  | succ w ih =>
    have h10 : (0:Nat) < 10 ^ w := Nat.pos_pow_of_pos w (by norm_num)
    simp only [padDigits, lex_cons_iff]
    rw [ih (Nat.mod_lt a h10) (Nat.mod_lt b h10)]
    rw [nat_lt_iff_divmod (10 ^ w) a b h10]

theorem map_digitChar_inj {as bs : List Nat} (ha : ∀ d ∈ as, d < 10)
    (hb : ∀ d ∈ bs, d < 10) (h : as.map digitChar = bs.map digitChar) :
    as = bs := by
  induction as generalizing bs with
  | nil => cases bs with
    | nil => rfl
    | cons b bs => cases h
  | cons a as ih =>
    cases bs with
    | nil => cases h
    | cons b bs =>
      simp only [List.map_cons, List.cons.injEq] at h
      have hab : a = b := (digitChar_eq_iff (ha a (by simp)) (hb b (by simp))).1 h.1
      have htl : as = bs := ih (fun d hd => ha d (by simp [hd]))
        (fun d hd => hb d (by simp [hd])) h.2
      rw [hab, htl]

theorem map_digitChar_lex_iff {as bs : List Nat} (ha : ∀ d ∈ as, d < 10)
    (hb : ∀ d ∈ bs, d < 10) :
    (List.Lex (· < ·) (as.map digitChar) (bs.map digitChar) ↔
      List.Lex (· < ·) as bs) := by
  induction as generalizing bs with
  | nil =>
    cases bs with
    | nil =>
      simp only [List.map_nil]
      exact iff_of_false (List.Lex.not_nil_right _ _) (List.Lex.not_nil_right _ _)
    | cons b bs =>
      simp only [List.map_nil, List.map_cons]
      exact iff_of_true List.Lex.nil List.Lex.nil
  | cons a as ih =>
    cases bs with
    | nil =>
      simp only [List.map_cons, List.map_nil]
      exact iff_of_false (List.Lex.not_nil_right _ _) (List.Lex.not_nil_right _ _)
    | cons b bs =>
      simp only [List.map_cons, lex_cons_iff]
      rw [digitChar_lt_iff (ha a (by simp)) (hb b (by simp)),
        digitChar_eq_iff (ha a (by simp)) (hb b (by simp)),
        ih (fun d hd => ha d (by simp [hd])) (fun d hd => hb d (by simp [hd]))]

theorem monthKeyChars_lex_iff (t u : Txn)
    (hty : t.date.y < 10000) (htm : t.date.m < 100)
    (huy : u.date.y < 10000) (hum : u.date.m < 100) :
    (List.Lex (· < ·) (monthKeyChars t) (monthKeyChars u) ↔
      (t.date.y < u.date.y ∨ (t.date.y = u.date.y ∧ t.date.m < u.date.m))) := by
  have hy4 : t.date.y < 10 ^ 4 := lt_of_lt_of_le hty (by norm_num)
  have hy4u : u.date.y < 10 ^ 4 := lt_of_lt_of_le huy (by norm_num)
  have hm2 : t.date.m < 10 ^ 2 := lt_of_lt_of_le htm (by norm_num)
  have hm2u : u.date.m < 10 ^ 2 := lt_of_lt_of_le hum (by norm_num)
  have hdt := padDigits_digit_lt 4 t.date.y hy4
  have hdu := padDigits_digit_lt 4 u.date.y hy4u
  have hmt := padDigits_digit_lt 2 t.date.m hm2
  have hmu := padDigits_digit_lt 2 u.date.m hm2u
  by_cases hy : t.date.y = u.date.y
  · have h1 : monthKeyChars t =
        ((padDigits 4 u.date.y).map digitChar ++ ['-']) ++
          (padDigits 2 t.date.m).map digitChar := by
      rw [monthKeyChars, hy]
      simp
    have h2 : monthKeyChars u =
        ((padDigits 4 u.date.y).map digitChar ++ ['-']) ++
          (padDigits 2 u.date.m).map digitChar := by
      rw [monthKeyChars]
      simp
    rw [h1, h2, lex_append_same, map_digitChar_lex_iff hmt hmu,
      padDigits_lex_iff 2 hm2 hm2u]
    simp [hy]
  · have hne : (padDigits 4 t.date.y).map digitChar
        ≠ (padDigits 4 u.date.y).map digitChar := by
      intro heq
      exact hy (padDigits_injOn hy4 hy4u (map_digitChar_inj hdt hdu heq))
    have hlen : ((padDigits 4 t.date.y).map digitChar).length
        = ((padDigits 4 u.date.y).map digitChar).length := by
      simp [padDigits_length]
    rw [monthKeyChars, monthKeyChars, lex_append_of_ne hlen hne,
      map_digitChar_lex_iff hdt hdu, padDigits_lex_iff 4 hy4 hy4u]
    simp [hy]

theorem monthKey_lt_iff (t u : Txn)
    (hty : t.date.y < 10000) (htm : t.date.m < 100)
    (huy : u.date.y < 10000) (hum : u.date.m < 100) :
    (monthKey t < monthKey u ↔
      (t.date.y < u.date.y ∨ (t.date.y = u.date.y ∧ t.date.m < u.date.m))) := by
  rw [show monthKey t < monthKey u
      ↔ List.Lex (· < ·) (monthKeyChars t) (monthKeyChars u) from
    String.lt_iff_toList_lt]
  exact monthKeyChars_lex_iff t u hty htm huy hum

theorem mem_monthsOf (txns : List Txn) (k : String) :
    k ∈ monthsOf txns ↔ k ∈ txns.map monthKey := by
  rw [monthsOf, List.mem_dedup, List.mem_insertionSort]

theorem monthsOf_sorted_le (txns : List Txn) : (monthsOf txns).Sorted (· ≤ ·) :=
  List.Pairwise.sublist (List.dedup_sublist _) (List.sorted_insertionSort _ _)

theorem monthsOf_nodup (txns : List Txn) : (monthsOf txns).Nodup :=
  List.nodup_dedup _

theorem monthsOf_sorted_lt (txns : List Txn) : (monthsOf txns).Sorted (· < ·) :=
  (List.Pairwise.and (monthsOf_sorted_le txns) (monthsOf_nodup txns)).imp
    (fun h => lt_of_le_of_ne h.1 h.2)

theorem sorted_le_getLast_aux : ∀ (l : List String) (mx : String),
    l.Sorted (· ≤ ·) → l.getLast? = some mx → ∀ k ∈ l, k ≤ mx := by
  intro l
  induction l with
  | nil => intro mx _ hmx k hk; cases hk
  | cons x xs ih =>
    intro mx hs hmx k hk
    cases xs with
    | nil =>
      simp only [List.getLast?_singleton, Option.some.injEq] at hmx
      rcases List.mem_singleton.1 hk with rfl
      rw [← hmx]
    | cons y ys =>
      have hs2 : (y :: ys).Sorted (· ≤ ·) := (List.sorted_cons.1 hs).2
      have hmx2 : (y :: ys).getLast? = some mx := by
        rw [List.getLast?_cons_cons] at hmx
        exact hmx
      rcases List.mem_cons.1 hk with rfl | hk2
      · exact (List.sorted_cons.1 hs).1 mx (List.mem_of_mem_getLast? hmx2)
      · exact ih mx hs2 hmx2 k hk2

theorem monthsOf_ne_nil {txns : List Txn} (h : txns ≠ []) :
    monthsOf txns ≠ [] := by
  intro hnil
  rw [monthsOf, List.dedup_eq_nil] at hnil
  have hperm := List.perm_insertionSort
    (α := String) (· ≤ ·) (txns.map monthKey)
  rw [hnil] at hperm
  exact h (List.map_eq_nil_iff.1 (List.Perm.nil_eq hperm).symm)

/-- C6: every transaction belongs to exactly one month partition, keyed
by its `"YYYY-MM"` month key; the month keys are listed strictly
ascending in the string (lexicographic) order, which coincides with
chronological order of (year, month) for four-digit years; and the
default selected month is the last listed key, which is the maximum. -/
theorem claim6_month_partition (txns : List Txn)
    (hbound : ∀ t ∈ txns, t.date.y < 10000 ∧ t.date.m < 100) :
    (monthsOf txns).Sorted (· < ·) ∧
    (∀ t ∈ txns, ∀ u ∈ txns,
      (monthKey t < monthKey u ↔
        (t.date.y < u.date.y ∨ (t.date.y = u.date.y ∧ t.date.m < u.date.m)))) ∧
    (∀ t ∈ txns, monthKey t ∈ monthsOf txns ∧
      (monthsOf txns).count (monthKey t) = 1 ∧
      ∀ k : String, t ∈ monthPartition txns k ↔ k = monthKey t) ∧
    (∀ k ∈ monthsOf txns, ∃ t ∈ txns, monthKey t = k) ∧
    (txns ≠ [] → ∃ mx, defaultSelectedMonth txns = some mx ∧
      ∀ k ∈ monthsOf txns, k ≤ mx) := by
  refine ⟨monthsOf_sorted_lt txns, ?_, ?_, ?_, ?_⟩
  · intro t ht u hu
    exact monthKey_lt_iff t u (hbound t ht).1 (hbound t ht).2
      (hbound u hu).1 (hbound u hu).2
  · intro t ht
    have hmem : monthKey t ∈ monthsOf txns :=
      (mem_monthsOf txns (monthKey t)).2 (List.mem_map_of_mem monthKey ht)
    refine ⟨hmem, List.count_eq_one_of_mem (monthsOf_nodup txns) hmem, ?_⟩
    intro k
    constructor
    · intro hk
      rcases List.mem_filter.1 hk with ⟨-, hbeq⟩
      exact (beq_iff_eq.1 hbeq).symm
    · rintro rfl
      exact List.mem_filter.2 ⟨ht, beq_self_eq_true _⟩
  · intro k hk
    rcases List.mem_map.1 ((mem_monthsOf txns k).1 hk) with ⟨t, ht, rfl⟩
    exact ⟨t, ht, rfl⟩
  · intro h
    cases hl : (monthsOf txns).getLast? with
    | none => exact absurd (List.getLast?_eq_none_iff.1 hl) (monthsOf_ne_nil h)
    | some mx =>
      exact ⟨mx, hl, sorted_le_getLast_aux (monthsOf txns) mx
        (monthsOf_sorted_le txns) hl⟩

theorem claim6_witness :
    (monthsOf [⟨⟨2025, 10, 1⟩, 0, "Food", "b", 2, "Cash", "", "You"⟩,
               ⟨⟨2025, 9, 30⟩, 0, "Food", "a", 1, "Cash", "", "You"⟩]).Sorted (· < ·) ∧
    (∃ mx, defaultSelectedMonth
        [⟨⟨2025, 10, 1⟩, 0, "Food", "b", 2, "Cash", "", "You"⟩,
         ⟨⟨2025, 9, 30⟩, 0, "Food", "a", 1, "Cash", "", "You"⟩] = some mx ∧
      ∀ k ∈ monthsOf [⟨⟨2025, 10, 1⟩, 0, "Food", "b", 2, "Cash", "", "You"⟩,
              ⟨⟨2025, 9, 30⟩, 0, "Food", "a", 1, "Cash", "", "You"⟩], k ≤ mx) :=
  ⟨(claim6_month_partition
      [⟨⟨2025, 10, 1⟩, 0, "Food", "b", 2, "Cash", "", "You"⟩,
       ⟨⟨2025, 9, 30⟩, 0, "Food", "a", 1, "Cash", "", "You"⟩] (by decide)).1,
   (claim6_month_partition
      [⟨⟨2025, 10, 1⟩, 0, "Food", "b", 2, "Cash", "", "You"⟩,
       ⟨⟨2025, 9, 30⟩, 0, "Food", "a", 1, "Cash", "", "You"⟩] (by decide)).2.2.2.2
      (by decide)⟩

theorem twoDigits_digitChar {a b : Nat} (ha : a < 10) (hb : b < 10) :
    twoDigits (digitChar a) (digitChar b) = some (10 * a + b) := by
  simp [twoDigits, charDigit_digitChar ha, charDigit_digitChar hb]

theorem fourDigits_digitChar {a b c d : Nat} (ha : a < 10) (hb : b < 10)
    (hc : c < 10) (hd : d < 10) :
    fourDigits (digitChar a) (digitChar b) (digitChar c) (digitChar d)
      = some (10 * (10 * (10 * a + b) + c) + d) := by
  simp [fourDigits, charDigit_digitChar ha, charDigit_digitChar hb,
    charDigit_digitChar hc, charDigit_digitChar hd]

theorem isoChars_eq (y m d : Nat) :
    isoChars ⟨y, m, d⟩
      = [digitChar (y / 10 ^ 3), digitChar (y % 10 ^ 3 / 10 ^ 2),
         digitChar (y % 10 ^ 3 % 10 ^ 2 / 10 ^ 1),
         digitChar (y % 10 ^ 3 % 10 ^ 2 % 10 ^ 1 / 10 ^ 0), '-',
         digitChar (m / 10 ^ 1), digitChar (m % 10 ^ 1 / 10 ^ 0), '-',
         digitChar (d / 10 ^ 1), digitChar (d % 10 ^ 1 / 10 ^ 0)] := rfl

theorem parseIsoDate_mk10 (a b c d e f g h : Char) :
    parseIsoDate (String.mk [a, b, c, d, '-', e, f, '-', g, h])
      = match fourDigits a b c d, twoDigits e f, twoDigits g h with
        | some y, some mo, some da => some (⟨y, mo, da⟩, 0)
        | _, _, _ => none := rfl

/-- Round trip: the serialized date the form writes parses back to the
same calendar date (with no time-of-day). -/
theorem parseIsoDate_isoStr (dt : Date) (hy : dt.y < 10000) (hm : dt.m < 100)
    (hd : dt.d < 100) : parseIsoDate (isoStr dt) = some (dt, 0) := by
  obtain ⟨y, m, d⟩ := dt
  simp only at hy hm hd
  rw [isoStr, isoChars_eq, parseIsoDate_mk10]
  have e3 : (10:Nat) ^ 3 = 1000 := by norm_num
  have e2 : (10:Nat) ^ 2 = 100 := by norm_num
  have e1 : (10:Nat) ^ 1 = 10 := by norm_num
  have e0 : (10:Nat) ^ 0 = 1 := by norm_num
  rw [e3, e2, e1, e0]
  rw [fourDigits_digitChar (by omega) (by omega) (by omega) (by omega),
    twoDigits_digitChar (by omega) (by omega),
    twoDigits_digitChar (by omega) (by omega)]
  simp only [Option.some.injEq, Prod.mk.injEq, Date.mk.injEq, and_true]
  refine ⟨?_, ?_, ?_⟩ <;> omega

theorem loadTransactions_store (s : AppState) :
    (loadTransactions s).2.store = s.store := by
  cases h : s.cacheTransactions <;> simp [loadTransactions, h]

theorem loadBudgets_store (s : AppState) :
    (loadBudgets s).2.store = s.store := by
  cases h : s.cacheBudgets <;> simp [loadBudgets, h]

theorem loadGoals_store (s : AppState) :
    (loadGoals s).2.store = s.store := by
  cases h : s.cacheGoals <;> simp [loadGoals, h]

theorem updateBudgetWrite_self (c : String) (a : ℚ)
    (table : List (String × Cell)) :
    updateBudgetWrite table c a table = update_budget_row c a table := rfl

theorem updateGoalWrite_self (g : String) (t c : ℚ)
    (table : List (String × Cell × Cell)) :
    updateGoalWrite table g t c table = update_goal_row g t c table := rfl

theorem normalizeTransactions_append_one (xs : List RawTxn) (l : List Txn)
    (r : RawTxn) (t : Txn) (hxs : normalizeTransactions xs = some l)
    (hr : normalizeTxnRow r = some t) :
    normalizeTransactions (xs ++ [r]) = some (l ++ [t]) := by
  induction xs generalizing l with
  | nil =>
    simp only [normalizeTransactions, Option.some.injEq] at hxs
    subst hxs
    simp [normalizeTransactions, hr]
  | cons x xs ih =>
    cases hx : normalizeTxnRow x with
    | none => simp [normalizeTransactions, hx] at hxs
    | some y =>
      cases hxs2 : normalizeTransactions xs with
      | none => simp [normalizeTransactions, hx, hxs2] at hxs
      | some l2 =>
        simp only [normalizeTransactions, hx, hxs2, Option.some.injEq] at hxs
        subst hxs
        simp [normalizeTransactions, hx, ih l2 hxs2]

theorem normalizeTxnRow_submitted (dt : Date) (hy : dt.y < 10000)
    (hm : dt.m < 100) (hd : dt.d < 100) (cat desc : String) (amt : ℚ)
    (method notes payer : String) :
    normalizeTxnRow
      { date := isoStr dt, category := cat, description := desc,
        amount := Cell.num amt, paymentMethod := method, notes := notes,
        payer := payer }
      = some
        { date := dt, timeOfDay := 0, category := cat,
          description := desc, amount := amt, paymentMethod := method,
          notes := notes, payer := payer } := by
  simp [normalizeTxnRow, parseIsoDate_isoStr dt hy hm hd, coerceNumeric,
    toNumeric]

/-- C4: read-your-writes — every submit handler (expense append, budget
upsert, goal upsert) clears the table cache after its write, so the next
load reads the store and returns the just-written data: the appended
transaction reloads and normalizes back with the same calendar date and
the same decimal amount (and all other fields intact), and the upserted
budget/goal tables reload exactly as written. -/
theorem claim4_read_your_writes (s : AppState) (dt : Date)
    (hy : dt.y < 10000) (hm : dt.m < 100) (hd : dt.d < 100)
    (cat desc : String) (amt : ℚ) (method notes payer : String)
    (l : List Txn) (hnorm : normalizeTransactions s.store.transactions = some l)
    (category : String) (amount : ℚ)
    (hcb : s.cacheBudgets = none ∨ s.cacheBudgets = some s.store.budgets)
    (goalName : String) (target current : ℚ)
    (hcg : s.cacheGoals = none ∨ s.cacheGoals = some s.store.goals) :
    ((loadTransactions (submitExpense dt cat desc amt method notes payer s)).1
        = s.store.transactions ++
          [{ date := isoStr dt, category := cat, description := desc,
             amount := Cell.num amt, paymentMethod := method, notes := notes,
             payer := payer }]) ∧
    (normalizeTransactions
        (loadTransactions (submitExpense dt cat desc amt method notes payer s)).1
      = some (l ++
        [{ date := dt, timeOfDay := 0, category := cat,
           description := desc, amount := amt, paymentMethod := method,
           notes := notes, payer := payer }])) ∧
    ((loadBudgets (submitBudget category amount s)).1
      = update_budget_row category amount s.store.budgets) ∧
    ((loadGoals (submitGoal goalName target current s)).1
      = update_goal_row goalName target current s.store.goals) := by
  have happ : (append_transaction
      { date := isoStr dt, category := cat, description := desc,
        amount := Cell.num amt, paymentMethod := method, notes := notes,
        payer := payer } s).store.transactions
      = s.store.transactions ++
        [{ date := isoStr dt, category := cat, description := desc,
           amount := Cell.num amt, paymentMethod := method, notes := notes,
           payer := payer }] := by
    show (loadTransactions s).2.store.transactions ++ _ = _
    rw [loadTransactions_store]
  have parta : (loadTransactions
      (submitExpense dt cat desc amt method notes payer s)).1
      = s.store.transactions ++
        [{ date := isoStr dt, category := cat, description := desc,
           amount := Cell.num amt, paymentMethod := method, notes := notes,
           payer := payer }] := by
    show (append_transaction _ s).store.transactions = _
    exact happ
  refine ⟨parta, ?_, ?_, ?_⟩
  · rw [parta]
    exact normalizeTransactions_append_one s.store.transactions l _ _ hnorm
      (normalizeTxnRow_submitted dt hy hm hd cat desc amt method notes payer)
  · have hfst : (loadBudgets s).1 = s.store.budgets := by
      rcases hcb with h | h <;> simp [loadBudgets, h]
    show updateBudgetWrite (loadBudgets s).1 category amount
        (loadBudgets s).2.store.budgets
      = update_budget_row category amount s.store.budgets
    rw [hfst, loadBudgets_store, updateBudgetWrite_self]
  · have hfst : (loadGoals s).1 = s.store.goals := by
      rcases hcg with h | h <;> simp [loadGoals, h]
    show updateGoalWrite (loadGoals s).1 goalName target current
        (loadGoals s).2.store.goals
      = update_goal_row goalName target current s.store.goals
    rw [hfst, loadGoals_store, updateGoalWrite_self]

theorem claim4_witness :
    ((loadTransactions (submitExpense ⟨2025, 10, 7⟩ "Food" "Lunch" 12 "Cash" "" "You"
        ⟨⟨[], [], []⟩, none, none, none⟩)).1
      = ([] : List RawTxn) ++
        [{ date := isoStr ⟨2025, 10, 7⟩, category := "Food", description := "Lunch",
           amount := Cell.num 12, paymentMethod := "Cash", notes := "",
           payer := "You" }]) ∧
    (normalizeTransactions
        (loadTransactions (submitExpense ⟨2025, 10, 7⟩ "Food" "Lunch" 12 "Cash" "" "You"
          ⟨⟨[], [], []⟩, none, none, none⟩)).1
      = some (([] : List Txn) ++
        [{ date := ⟨2025, 10, 7⟩, timeOfDay := 0, category := "Food",
           description := "Lunch", amount := 12, paymentMethod := "Cash",
           notes := "", payer := "You" }])) ∧
    ((loadBudgets (submitBudget "Food" 500 ⟨⟨[], [], []⟩, none, none, none⟩)).1
      = update_budget_row "Food" 500 []) ∧
    ((loadGoals (submitGoal "Trip" 1200 300 ⟨⟨[], [], []⟩, none, none, none⟩)).1
      = update_goal_row "Trip" 1200 300 []) :=
  claim4_read_your_writes ⟨⟨[], [], []⟩, none, none, none⟩ ⟨2025, 10, 7⟩
    (by decide) (by decide) (by decide) "Food" "Lunch" 12 "Cash" "" "You"
    [] rfl "Food" 500 (Or.inl rfl) "Trip" 1200 300 (Or.inl rfl)
